import Mathlib

/-!
Verification of the reservation-ordering web demo (script.js and display.js)
against its natural-language specification.

The JavaScript source is shallowly embedded: each relevant function is
translated into an executable Lean definition over explicit data.

Modelling conventions:
* JS objects used as string-keyed maps (an order's `items`, the batch
  summary) are modelled as association lists `List (String × _)` in key
  insertion order, matching JS object key enumeration order; assigning a
  fresh key appends, assigning an existing key updates in place, `delete`
  removes the pair.
* `localStorage.getItem(k)` followed by `JSON.parse` either finds no value,
  throws on malformed text, or yields a parsed value; a stored slot is
  therefore modelled by the three-case type `StoredVal`.  (An empty stored
  string is falsy in JS and takes the same branch as a missing key, so it
  is folded into `absent`.)
* JS numbers used as quantities/deltas/indices are modelled as `Int`
  (all values arising in the program are integers).
* Timestamps (`new Date().toISOString()`) are opaque strings passed in as
  parameters.
-/

/-- MenuItem as produced by `parseLine`: a category and an item name. -/
structure MenuItem where
  category : String
  name : String
deriving DecidableEq, Repr

/-- OrderLine: one entry of an order's `items` object. -/
structure OrderLine where
  category : String
  quantity : Int
deriving DecidableEq, Repr

/-- Order: reservation id, items map (association list in insertion
order), and creation timestamp. -/
structure Order where
  id : String
  items : List (String × OrderLine)
  createdAt : String
deriving DecidableEq, Repr

/-! ## Character-level string helpers (JS semantics) -/

/-- Separator characters of the split regex in `parseLine`
(`/[|,;\-]+/`). -/
def isSep (c : Char) : Bool :=
  c = '|' || c = ',' || c = ';' || c = '-'

/-- Whitespace test used to model `String.prototype.trim`. -/
def wsp (c : Char) : Bool := c.isWhitespace

/-- JS `trim` on a character list: drop leading and trailing whitespace. -/
def trimL (l : List Char) : List Char :=
  ((l.dropWhile wsp).reverse.dropWhile wsp).reverse

/-- One step of splitting on maximal runs of separator characters,
consumed right to left.  The Bool records whether the character just to
the right was a separator, so that a run contributes one boundary. -/
def splitStep (c : Char) (st : Bool × List (List Char)) :
    Bool × List (List Char) :=
  if isSep c then (true, if st.1 then st.2 else [] :: st.2)
  else (false, (c :: st.2.headD []) :: st.2.tail)

/-- JS `trimmed.split(/[|,;\-]+/)`: fields between maximal runs of
separator characters (leading or trailing runs yield empty fields,
exactly as in JS). -/
def splitSeps (l : List Char) : List (List Char) :=
  (l.foldr splitStep (false, [[]])).2

/-- JS `parts.join(" ")` on character lists. -/
def joinSpace : List (List Char) → List Char
  | [] => []
  | [f] => f
  | f :: fs => f ++ ' ' :: joinSpace fs

/-- parseLine (script.js lines 28–51) on a character list: trim; `none`
for empty lines and `#` comments; split on separator runs; first field is
the candidate category; with at least two fields the rest joined by
spaces is the candidate name, and an empty candidate name swaps to
`(uncategorized, category)`; with a single field the whole trimmed line
is the name under `uncategorized`. -/
def parseLineC (l : List Char) : Option MenuItem :=
  let trimmed := trimL l
  if trimmed = [] || trimmed.headD ' ' = '#' then none
  else
    let parts := splitSeps trimmed
    let category := trimL (parts.headD [])
    if parts.length > 1 then
      let name := trimL (joinSpace parts.tail)
      if name = [] then
        some ⟨"uncategorized", String.mk category⟩
      else
        some ⟨String.mk category, String.mk name⟩
    else
      some ⟨"uncategorized", String.mk trimmed⟩

/-- parseLine on a `String` input line. -/
def parseLine (line : String) : Option MenuItem :=
  parseLineC line.data

/-- jsTrim: `String.prototype.trim` at the `String` level. -/
def jsTrim (s : String) : String :=
  String.mk (trimL s.data)

/-! ## Menu loader (script.js `loadItems`, lines 58–102) -/

/-- StoredVal models the result of `localStorage.getItem(k)` followed by
`JSON.parse`: the key is absent (or holds the falsy empty string), holds
malformed text on which `JSON.parse` throws, or holds text parsing to a
value. -/
inductive StoredVal (α : Type) where
  | absent : StoredVal α
  | corrupt : StoredVal α
  | value (v : α) : StoredVal α
deriving DecidableEq, Repr

/-- Fallback sample items hard-coded in `loadItems` (lines 91–100). -/
def fallbackItems : List MenuItem :=
  [⟨"dishes", "Falafel Dish"⟩, ⟨"dishes", "Nacho"⟩, ⟨"dishes", "Burger"⟩,
   ⟨"wraps", "Chicken Wrap"⟩, ⟨"wraps", "Falafel Wrap"⟩,
   ⟨"drinks", "Lemonade"⟩, ⟨"drinks", "Water"⟩, ⟨"drinks", "Soda"⟩]

/-- Split of the fetched text on `/\r?\n/`: split at each newline and
strip one carriage return left hanging at the end of a piece. -/
def splitLinesJS (text : String) : List String :=
  (text.splitOn "\n").map fun piece =>
    if piece.endsWith "\r" then piece.dropRight 1 else piece

/-- Custom-items load step of `loadItems` (lines 77–86): absent or
malformed storage degrades to the empty list inside the catch. -/
def loadCustomItems (stored : StoredVal (List MenuItem)) : List MenuItem :=
  match stored with
  | .absent => []
  | .corrupt => []
  | .value v => v

/-- loadItems (lines 58–102): a failed fetch degrades to no parsed
items; parsed lines keep the non-comment entries; stored custom items are
appended; an empty combined list is replaced by the fallback set.
`fetched` is `none` when the fetch (or reading its body) threw. -/
def loadItems (fetched : Option String)
    (storedCustom : StoredVal (List MenuItem)) : List MenuItem :=
  let parsed := match fetched with
    | none => []
    | some text => (splitLinesJS text).filterMap parseLine
  let merged := parsed ++ loadCustomItems storedCustom
  if merged.isEmpty then fallbackItems else merged

/-! ## Order session (script.js lines 236–279, 341–363, 386–424) -/

/-- Lookup in an association list by key, first match (JS property
read). -/
def alookup {β : Type} (items : List (String × β)) (k : String) :
    Option β :=
  match items with
  | [] => none
  | p :: rest => if p.1 = k then some p.2 else alookup rest k

/-- addItemToOrder (lines 236–246): a name absent from `items` is
appended with quantity 1 and the given category; a present name has its
quantity incremented (category untouched). -/
def addItemToOrder (o : Order) (name category : String) : Order :=
  match alookup o.items name with
  | none => { o with items := o.items ++ [(name, ⟨category, 1⟩)] }
  | some _ =>
      { o with items := o.items.map fun p =>
          if p.1 = name then (p.1, ⟨p.2.category, p.2.quantity + 1⟩)
          else p }

/-- removeItem (lines 253–259): delete the entry outright. -/
def removeItem (o : Order) (name : String) : Order :=
  match alookup o.items name with
  | none => o
  | some _ => { o with items := o.items.filter fun p => ¬(p.1 = name) }

/-- updateItemQuantity (lines 269–279): add `delta` to the entry's
quantity, deleting the entry if the result is ≤ 0; absent names are a
no-op. -/
def updateItemQuantity (o : Order) (name : String) (delta : Int) : Order :=
  match alookup o.items name with
  | none => o
  | some line =>
      if line.quantity + delta ≤ 0 then
        { o with items := o.items.filter fun p => ¬(p.1 = name) }
      else
        { o with items := o.items.map fun p =>
            if p.1 = name then (p.1, ⟨p.2.category, p.2.quantity + delta⟩)
            else p }

/-- Act: one user action on the active order via the menu buttons
(`addItemToOrder`) or the plus/minus controls (`updateItemQuantity`). -/
inductive Act where
  | add (name category : String) : Act
  | adjust (name : String) (delta : Int) : Act
deriving DecidableEq, Repr

/-- applyAct: apply one action to the active order. -/
def applyAct (o : Order) (a : Act) : Order :=
  match a with
  | .add name category => addItemToOrder o name category
  | .adjust name delta => updateItemQuantity o name delta

/-- runActs: fold a sequence of actions over an order. -/
def runActs (o : Order) (acts : List Act) : Order :=
  acts.foldl applyAct o

/-- newOrder: the order created by the reservation-form handler
(lines 348–352), with empty items. -/
def newOrder (id createdAt : String) : Order :=
  { id := id, items := [], createdAt := createdAt }

/-! ## Ordering page state and the submit handler -/

/-- Failure message of the submit handler (lines 391–392). -/
def submitFailMsg : String := "Add at least one item before submitting."

/-- PageState: the ordering page's persisted `orders` slot, its in-memory
`orders` array, the active order, and the `order-message` text.  The
persisted slot is typed `List Order` here: these claims quantify over
stored order sequences. -/
structure PageState where
  stored : StoredVal (List Order)
  orders : List Order
  currentOrder : Option Order
  message : String
deriving DecidableEq, Repr

/-- loadOrders at the typed level (lines 285–296): a missing or corrupt
slot degrades to the empty sequence. -/
def loadOrdersT (s : StoredVal (List Order)) : List Order :=
  match s with
  | .value v => v
  | _ => []

/-- Reservation-form submit handler (lines 341–363): an input trimming to
empty is a no-op; otherwise a fresh empty order becomes current and the
messages are cleared. -/
def startSession (st : PageState) (input createdAt : String) : PageState :=
  if jsTrim input = "" then st
  else { st with currentOrder := some (newOrder (jsTrim input) createdAt),
                 message := "" }

/-- Menu-button click (lines 148–150 via 236–246): no active order is a
no-op; otherwise `addItemToOrder` runs on the active order. -/
def addItemClick (st : PageState) (name category : String) : PageState :=
  match st.currentOrder with
  | none => st
  | some o => { st with currentOrder := some (addItemToOrder o name category) }

/-- Submit-order click handler (lines 386–414): with no active order or
no items it only sets the failure message; otherwise it re-reads the
stored orders (loadOrders, line 405), appends the current order, persists
the whole sequence (saveOrders), and clears the session
(clearCurrentOrder, which also blanks the message). -/
def submitClick (st : PageState) : PageState :=
  match st.currentOrder with
  | none => { st with message := submitFailMsg }
  | some o =>
      if o.items.isEmpty then { st with message := submitFailMsg }
      else
        let orders := loadOrdersT st.stored ++ [o]
        { stored := .value orders, orders := orders,
          currentOrder := none, message := "" }

/-! ## Untyped persisted `orders` slot (script.js lines 285–304,
display.js lines 25–44) -/

/-- Jsonv: values `JSON.parse` can produce. -/
inductive Jsonv where
  | null : Jsonv
  | bool (b : Bool) : Jsonv
  | num (n : Int) : Jsonv
  | str (s : String) : Jsonv
  | arr (elems : List Jsonv) : Jsonv
  | obj (fields : List (String × Jsonv)) : Jsonv

/-- loadOrders at the untyped level: `JSON.parse` output is assigned to
`orders` unvalidated; a missing key or a parse failure yields the empty
array.  Total, mirroring the try/catch that keeps the handler from
raising. -/
def loadOrdersJ (s : StoredVal Jsonv) : Jsonv :=
  match s with
  | .value v => v
  | _ => .arr []

/-- saveOrders at the untyped level: `JSON.stringify` of the in-memory
value overwrites the slot, which afterwards parses back to that value
(re-serialization is identity on parsed values). -/
def saveOrdersJ (v : Jsonv) : StoredVal Jsonv :=
  .value v

/-! ## Kitchen display (display.js) -/

/-- DisplayState: the kitchen display's persisted slot and in-memory
copy. -/
structure DisplayState where
  stored : StoredVal (List Order)
  orders : List Order
deriving DecidableEq, Repr

/-- spliceStart: the actual start index of `Array.prototype.splice`:
negative indices count from the end (clamped to 0), nonnegative ones are
clamped to the length. -/
def spliceStart (len : Nat) (index : Int) : Nat :=
  if index < 0 then ((len : Int) + index).toNat
  else min index.toNat len

/-- spliceRemove: `orders.splice(index, 1)` — remove (at most) one
element starting at the actual start index. -/
def spliceRemove (l : List Order) (index : Int) : List Order :=
  let s := spliceStart l.length index
  l.take s ++ l.drop (s + 1)

/-- removeOrder (display.js lines 115–119): splice out the index, then
persist the resulting sequence. -/
def removeOrderClick (st : DisplayState) (index : Int) : DisplayState :=
  let orders := spliceRemove st.orders index
  { orders := orders, stored := .value orders }

/-- jsIndex: JS array subscript `orders[i]` — `undefined` (none) for
negative or out-of-range indices. -/
def jsIndex {α : Type} (l : List α) (i : Int) : Option α :=
  if h : 0 ≤ i ∧ i.toNat < l.length then some (l.get ⟨i.toNat, h.2⟩)
  else none

/-- addQty: `summary[name] = (summary[name] || 0) + qty` on the summary
association list (a fresh key is appended). -/
def addQty (s : List (String × Int)) (name : String) (q : Int) :
    List (String × Int) :=
  match alookup s name with
  | none => s ++ [(name, q)]
  | some v => s.map fun p => if p.1 = name then (p.1, v + q) else p

/-- addOrderItems: the inner loop of `buildBatchSummary` over one
selected order's items. -/
def addOrderItems (s : List (String × Int)) (o : Order) :
    List (String × Int) :=
  o.items.foldl (fun acc p => addQty acc p.1 p.2.quantity) s

/-- stepIdx: the body of the loop of `buildBatchSummary` for one
selected index — an undefined subscript is skipped (`if (!order)
return`), otherwise the order's items are added into the summary. -/
def stepIdx (orders : List Order) (acc : List (String × Int)) (i : Int) :
    List (String × Int) :=
  match jsIndex orders i with
  | none => acc
  | some o => addOrderItems acc o

/-- buildBatchSummary (display.js lines 127–142): fold the selected
indices, skipping those whose subscript is undefined, summing quantities
per item name. -/
def buildBatchSummary (orders : List Order) (indices : List Int) :
    List (String × Int) :=
  indices.foldl (stepIdx orders) []

/-- orderQty: total quantity the entries named `name` contribute in one
order. -/
def orderQty (o : Order) (name : String) : Int :=
  ((o.items.filter fun p => p.1 = name).map fun p => p.2.quantity).sum

/-- idxQty: the quantity one selected index contributes for `name` — 0
when the subscript is undefined. -/
def idxQty (orders : List Order) (name : String) (i : Int) : Int :=
  match jsIndex orders i with
  | none => 0
  | some o => orderQty o name

/-- idxHas: whether the order at one selected index (if defined) has an
items entry named `name`. -/
def idxHas (orders : List Order) (name : String) (i : Int) : Bool :=
  match jsIndex orders i with
  | none => false
  | some o => o.items.any fun p => p.1 = name

/-- selQty: specification-side sum of `name`'s quantities over the orders
at the selected indices, counting only indices whose subscript is
defined. -/
def selQty (orders : List Order) (indices : List Int) (name : String) :
    Int :=
  (indices.map (idxQty orders name)).sum

/-- selHas: whether `name` occurs in some selected order's items. -/
def selHas (orders : List Order) (indices : List Int) (name : String) :
    Bool :=
  indices.any (idxHas orders name)

/-! ## Auxiliary definitions for the statements and proofs -/

/-- Jsonv.isArr: whether a parsed JSON value is an array. -/
def Jsonv.isArr : Jsonv → Bool
  | .arr _ => true
  | _ => false

/-- StoredVal.isCorrupt: whether a stored slot holds malformed text. -/
def StoredVal.isCorrupt {α : Type} : StoredVal α → Bool
  | .corrupt => true
  | _ => false

/-- ItemsInv: the items map has pairwise-distinct keys (it models a JS
object) and every line's quantity is positive. -/
def ItemsInv (items : List (String × OrderLine)) : Prop :=
  (items.map Prod.fst).Nodup ∧ ∀ p ∈ items, 0 < p.2.quantity

/-- Sample order with a single item A of quantity 2. -/
def ordA : Order :=
  { id := "1", items := [("A", ⟨"c", 2⟩)], createdAt := "t1" }

/-- Sample order with items A of quantity 3 and B of quantity 1. -/
def ordAB : Order :=
  { id := "2", items := [("A", ⟨"c", 3⟩), ("B", ⟨"c", 1⟩)], createdAt := "t2" }

/-- Sample empty order A for the kitchen-display claims. -/
def oA : Order := { id := "A", items := [], createdAt := "tA" }

/-- Sample empty order B for the kitchen-display claims. -/
def oB : Order := { id := "B", items := [], createdAt := "tB" }

/-! ## Helper lemmas -/

/-- Out-of-range nonnegative splice start: nothing is removed. -/
theorem spliceRemove_oob (l : List Order) (i : Int)
    (h : (l.length : Int) ≤ i) : spliceRemove l i = l := by
  have h0 : ¬ i < 0 := by omega
  have hmin : min i.toNat l.length = l.length := by omega
  simp [spliceRemove, spliceStart, h0, hmin]

/-- In-range splice start: exactly the element at the index is removed. -/
theorem spliceRemove_inbounds (l : List Order) (i : Int) (h0 : 0 ≤ i)
    (h1 : i < (l.length : Int)) : spliceRemove l i = l.eraseIdx i.toNat := by
  have hneg : ¬ i < 0 := by omega
  have hmin : min i.toNat l.length = i.toNat := by omega
  simp [spliceRemove, spliceStart, hneg, hmin, List.eraseIdx_eq_take_drop_succ]

/-! ## Claim theorems -/

/-- Claim C3: `submitClick` with no active order or an empty items map
only reports the failure message, leaving store, in-memory orders and
session untouched; with a non-empty active order it re-reads the
persisted store, appends the current order, persists the whole sequence
and clears the session; and the concrete scenario — session "R1", two
adds of Burger/dishes, submit on an empty store — leaves exactly one
stored order "R1" with Burger at quantity 2. -/
theorem submitClick_spec :
    (∀ st : PageState, st.currentOrder = none →
       submitClick st = { st with message := submitFailMsg }) ∧
    (∀ (st : PageState) (o : Order), st.currentOrder = some o →
       o.items = [] →
       submitClick st = { st with message := submitFailMsg }) ∧
    (∀ (st : PageState) (o : Order), st.currentOrder = some o →
       o.items ≠ [] →
       submitClick st = { stored := .value (loadOrdersT st.stored ++ [o]),
                          orders := loadOrdersT st.stored ++ [o],
                          currentOrder := none, message := "" }) ∧
    (∀ t : String,
       submitClick (addItemClick (addItemClick
           (startSession ⟨.absent, [], none, ""⟩ "R1" t)
           "Burger" "dishes") "Burger" "dishes") =
         ⟨.value [⟨"R1", [("Burger", ⟨"dishes", 2⟩)], t⟩],
          [⟨"R1", [("Burger", ⟨"dishes", 2⟩)], t⟩], none, ""⟩) := by
  refine ⟨fun st h => by simp [submitClick, h],
          fun st o h he => by simp [submitClick, h, he],
          fun st o h hne => by simp [submitClick, h, hne],
          fun t => ?_⟩
  simp [startSession, addItemClick, submitClick, addItemToOrder, alookup,
    newOrder, loadOrdersT, jsTrim, trimL, wsp, submitFailMsg]

/-- Witness for C3: the non-empty branch of `submitClick_spec` at a
concrete state. -/
theorem submitClick_spec_w :
    submitClick ⟨.absent, [], some ⟨"R1", [("Burger", ⟨"dishes", 2⟩)], "t"⟩, ""⟩ =
      ⟨.value [⟨"R1", [("Burger", ⟨"dishes", 2⟩)], "t"⟩],
       [⟨"R1", [("Burger", ⟨"dishes", 2⟩)], "t"⟩], none, ""⟩ :=
  submitClick_spec.2.2.1
    ⟨.absent, [], some ⟨"R1", [("Burger", ⟨"dishes", 2⟩)], "t"⟩, ""⟩
    ⟨"R1", [("Burger", ⟨"dishes", 2⟩)], "t"⟩ rfl (by decide)

/-- Claim C4: with more than one split segment and a remainder joining
and trimming to empty, `parseLine` swaps — the name becomes the first
(category) segment and the category becomes uncategorized — and the four
quoted evaluations hold. -/
theorem parseLine_swap_spec :
    (∀ line : String, trimL line.data ≠ [] →
       (trimL line.data).headD ' ' ≠ '#' →
       1 < (splitSeps (trimL line.data)).length →
       trimL (joinSpace (splitSeps (trimL line.data)).tail) = [] →
       parseLine line =
         some ⟨"uncategorized",
               String.mk (trimL ((splitSeps (trimL line.data)).headD []))⟩) ∧
    parseLine "cat-" = some ⟨"uncategorized", "cat"⟩ ∧
    parseLine "drinks|Soda" = some ⟨"drinks", "Soda"⟩ ∧
    parseLine "Water" = some ⟨"uncategorized", "Water"⟩ ∧
    parseLine "# comment" = none := by
  refine ⟨fun line h1 h2 h3 h4 => ?_, by decide, by decide, by decide,
    by decide⟩
  simp only [List.headD_eq_head?_getD] at h2
  simp [parseLine, parseLineC, h1, h2, h3, h4]

/-- Witness for C4: the swap branch applied at the line "cat-". -/
theorem parseLine_swap_spec_w :
    parseLine "cat-" =
      some ⟨"uncategorized",
            String.mk (trimL ((splitSeps (trimL "cat-".data)).headD []))⟩ :=
  parseLine_swap_spec.1 "cat-" (by decide) (by decide) (by decide) (by decide)

/-- Claim C5 (amended): on a display state holding a stored order
sequence, `removeOrder` with an index at or beyond the length persists
the sequence unchanged; with an in-range nonnegative index it removes
exactly the order at that index and persists the result; and
`complete(5)` on a two-order store changes nothing. -/
theorem removeOrder_spec :
    (∀ (s : List Order) (index : Int), (s.length : Int) ≤ index →
       removeOrderClick ⟨.value s, s⟩ index = ⟨.value s, s⟩) ∧
    (∀ (s : List Order) (index : Int), 0 ≤ index → index < (s.length : Int) →
       removeOrderClick ⟨.value s, s⟩ index =
         ⟨.value (s.eraseIdx index.toNat), s.eraseIdx index.toNat⟩) ∧
    removeOrderClick ⟨.value [oA, oB], [oA, oB]⟩ 5 = ⟨.value [oA, oB], [oA, oB]⟩ := by
  refine ⟨fun s i h => ?_, fun s i h0 h1 => ?_, by decide⟩
  · simp [removeOrderClick, spliceRemove_oob s i h]
  · simp [removeOrderClick, spliceRemove_inbounds s i h0 h1]

/-- Witness for C5: `removeOrder_spec` applied at index 0 of the
two-order store. -/
theorem removeOrder_spec_w :
    removeOrderClick ⟨.value [oA, oB], [oA, oB]⟩ 0 = ⟨.value [oB], [oB]⟩ :=
  removeOrder_spec.2.1 [oA, oB] 0 (by decide) (by decide)

/-- Counterexample for C5 as stated: the negative out-of-bounds index −1
is not a no-op — JS `splice` counts it from the end and removes the last
order, changing the persisted store content. -/
theorem removeOrder_negative_index_cex :
    removeOrderClick ⟨.value [oA, oB], [oA, oB]⟩ (-1) = ⟨.value [oA], [oA]⟩ ∧
    decide ((removeOrderClick ⟨.value [oA, oB], [oA, oB]⟩ (-1)).stored =
      .value [oA, oB]) = false := by
  constructor <;> decide

/-- Claim C7: loadOrders yields the empty sequence when the `orders` key
is missing and when its value is malformed JSON (the parse failure is
caught, so the handler never raises; the function here is total). -/
theorem loadOrders_degrades_to_empty :
    loadOrdersJ .absent = .arr [] ∧ loadOrdersJ .corrupt = .arr [] ∧
    loadOrdersT .absent = [] ∧ loadOrdersT .corrupt = [] :=
  ⟨rfl, rfl, rfl, rfl⟩

/-- Claim C8: with the menu fetch failed and the stored custom-item set
absent, corrupt or empty, `loadItems` returns exactly the built-in
fallback set: 8 items whose categories are dishes, wraps and drinks in
that fixed order. -/
theorem loadItems_fallback_spec :
    loadItems none .absent = fallbackItems ∧
    loadItems none .corrupt = fallbackItems ∧
    loadItems none (.value []) = fallbackItems ∧
    fallbackItems.length = 8 ∧
    ((loadItems none .absent).map MenuItem.category).dedup =
      ["dishes", "wraps", "drinks"] := by
  refine ⟨by decide, by decide, by decide, by decide, by decide⟩

/-- Claim C9 (amended): on a well-formed persisted value the save/load
pair is the identity on the stored slot, and on every slot the loaded
content survives the round trip unchanged. -/
theorem save_load_round_trip :
    (∀ v : Jsonv, saveOrdersJ (loadOrdersJ (.value v)) = .value v) ∧
    (∀ s : StoredVal Jsonv,
       loadOrdersJ (saveOrdersJ (loadOrdersJ s)) = loadOrdersJ s) :=
  ⟨fun _ => rfl, fun _ => rfl⟩

/-- Counterexample for C9 as stated: a corrupt persisted slot is not
left unchanged by `saveAll(loadAll())` — it is overwritten with the
serialization of the empty sequence. -/
theorem save_load_corrupt_cex :
    saveOrdersJ (loadOrdersJ .corrupt) = .value (.arr []) ∧
    (saveOrdersJ (loadOrdersJ .corrupt)).isCorrupt = false ∧
    (StoredVal.corrupt : StoredVal Jsonv).isCorrupt = true :=
  ⟨rfl, rfl, rfl⟩

/-- Claim C10: a well-formed non-sequence value stored under `orders`
(the JSON text "5") is returned as-is as the in-memory state — no shape
validation — rather than degrading to the empty sequence. -/
theorem loadOrders_no_shape_validation :
    loadOrdersJ (.value (.num 5)) = .num 5 ∧
    (loadOrdersJ (.value (.num 5))).isArr = false ∧
    (Jsonv.arr []).isArr = true :=
  ⟨rfl, rfl, rfl⟩

/-- Lookup failure means the key is not among the map's keys. -/
theorem alookup_none_not_mem {β : Type} (items : List (String × β)) (k : String)
    (h : alookup items k = none) : k ∉ items.map Prod.fst := by
  induction items with
  | nil => simp
  | cons p rest ih =>
    simp only [alookup] at h
    by_cases hp : p.1 = k
    · simp [hp] at h
    · simp only [hp, if_false] at h
      intro hmem
      rcases List.mem_cons.mp hmem with h1 | h2
      · exact hp h1.symm
      · exact ih h h2

/-- With pairwise-distinct keys, a member pair is what lookup finds. -/
theorem alookup_of_mem_nodup {β : Type} {items : List (String × β)}
    {k : String} {b : β} (hnd : (items.map Prod.fst).Nodup)
    (hm : (k, b) ∈ items) : alookup items k = some b := by
  induction items with
  | nil => simp at hm
  | cons p rest ih =>
    simp only [List.map_cons, List.nodup_cons] at hnd
    rcases List.mem_cons.mp hm with h1 | h2
    · rw [← h1]
      simp [alookup]
    · by_cases hp : p.1 = k
      · exfalso
        apply hnd.1
        rw [hp]
        exact List.mem_map.mpr ⟨(k, b), h2, rfl⟩
      · simp only [alookup, hp, if_false]
        exact ih hnd.2 h2

/-- addItemToOrder preserves the items invariant. -/
theorem itemsInv_add (o : Order) (name category : String)
    (h : ItemsInv o.items) : ItemsInv (addItemToOrder o name category).items := by
  cases hl : alookup o.items name with
  | none =>
    simp only [addItemToOrder, hl]
    refine ⟨?_, ?_⟩
    · have hk : name ∉ o.items.map Prod.fst := alookup_none_not_mem _ _ hl
      simp [List.nodup_append, h.1, hk]
    · intro p hp
      rcases List.mem_append.mp hp with h1 | h2
      · exact h.2 p h1
      · simp at h2
        simp [h2]
  | some line =>
    simp only [addItemToOrder, hl]
    refine ⟨?_, ?_⟩
    · have hkeys : ((o.items.map fun p =>
          if p.1 = name then (p.1, (⟨p.2.category, p.2.quantity + 1⟩ : OrderLine))
          else p).map Prod.fst) = o.items.map Prod.fst := by
        rw [List.map_map]
        apply List.map_congr_left
        intro p _
        by_cases hpn : p.1 = name <;> simp [hpn]
      rw [hkeys]
      exact h.1
    · intro p hp
      rcases List.mem_map.mp hp with ⟨q, hq, rfl⟩
      have hq2 := h.2 q hq
      by_cases hqn : q.1 = name
      · simp [hqn]
        omega
      · simp [hqn]
        exact hq2

/-- updateItemQuantity preserves the items invariant. -/
theorem itemsInv_update (o : Order) (name : String) (delta : Int)
    (h : ItemsInv o.items) : ItemsInv (updateItemQuantity o name delta).items := by
  cases hl : alookup o.items name with
  | none =>
    simp only [updateItemQuantity, hl]
    exact h
  | some line =>
    by_cases hq : line.quantity + delta ≤ 0
    · simp only [updateItemQuantity, hl, hq, if_true]
      refine ⟨?_, ?_⟩
      · have hs : List.Sublist (o.items.filter fun p => ¬(p.1 = name)) o.items :=
          List.filter_sublist _
        exact h.1.sublist (hs.map Prod.fst)
      · intro p hp
        exact h.2 p (List.mem_of_mem_filter hp)
    · simp only [updateItemQuantity, hl, hq, if_false]
      refine ⟨?_, ?_⟩
      · have hkeys : ((o.items.map fun p =>
            if p.1 = name then (p.1, (⟨p.2.category, p.2.quantity + delta⟩ : OrderLine))
            else p).map Prod.fst) = o.items.map Prod.fst := by
          rw [List.map_map]
          apply List.map_congr_left
          intro p _
          by_cases hpn : p.1 = name <;> simp [hpn]
        rw [hkeys]
        exact h.1
      · intro p hp
        rcases List.mem_map.mp hp with ⟨q, hq', rfl⟩
        by_cases hqn : q.1 = name
        · have hline : alookup o.items q.1 = some q.2 :=
            alookup_of_mem_nodup h.1 hq'
          rw [hqn, hl] at hline
          have hlq : line = q.2 := by injection hline
          subst hlq
          simp [hqn]
          omega
        · simp [hqn]
          exact h.2 q hq'

/-- Every single session action preserves the items invariant. -/
theorem itemsInv_applyAct (o : Order) (a : Act) (h : ItemsInv o.items) :
    ItemsInv (applyAct o a).items := by
  cases a with
  | add name category => exact itemsInv_add o name category h
  | adjust name delta => exact itemsInv_update o name delta h

/-- Every action sequence preserves the items invariant. -/
theorem itemsInv_runActs (o : Order) (acts : List Act) (h : ItemsInv o.items) :
    ItemsInv (runActs o acts).items := by
  induction acts generalizing o with
  | nil => exact h
  | cons a rest ih => exact ih (applyAct o a) (itemsInv_applyAct o a h)

/-- Claim C2: after any sequence of addItem and adjustQuantity actions
on a session started with empty items, every line of the order's items
map has strictly positive quantity (adjusting to zero or below deletes
the entry instead of storing it). -/
theorem order_quantities_positive (id t : String) (acts : List Act)
    (n : String) (ol : OrderLine)
    (h : (n, ol) ∈ (runActs (newOrder id t) acts).items) : 0 < ol.quantity := by
  have hinv : ItemsInv (runActs (newOrder id t) acts).items :=
    itemsInv_runActs _ _ ⟨by simp [newOrder], by simp [newOrder]⟩
  exact hinv.2 (n, ol) h

/-- Witness for C2: a single add leaves Burger with quantity 1 > 0. -/
theorem order_quantities_positive_w :
    (0 : Int) < OrderLine.quantity ⟨"dishes", 1⟩ :=
  order_quantities_positive "R1" "t" [Act.add "Burger" "dishes"] "Burger"
    ⟨"dishes", 1⟩ (by decide)

/-- Lookup distributes over append when the left part misses the key. -/
theorem alookup_append_none {β : Type} (s t : List (String × β)) (k : String)
    (h : alookup s k = none) : alookup (s ++ t) k = alookup t k := by
  induction s with
  | nil => simp
  | cons p rest ih =>
    simp only [alookup] at h
    by_cases hp : p.1 = k
    · simp [hp] at h
    · simp only [hp, if_false] at h
      simp only [List.cons_append, alookup, hp, if_false]
      exact ih h

/-- Lookup distributes over append when the left part has the key. -/
theorem alookup_append_some {β : Type} (s t : List (String × β)) (k : String)
    (v : β) (h : alookup s k = some v) : alookup (s ++ t) k = some v := by
  induction s with
  | nil => simp [alookup] at h
  | cons p rest ih =>
    simp only [alookup] at h
    by_cases hp : p.1 = k
    · simp only [hp, if_true] at h
      simp only [List.cons_append, alookup, hp, if_true]
      exact h
    · simp only [hp, if_false] at h
      simp only [List.cons_append, alookup, hp, if_false]
      exact ih h

/-- Lookup after an in-place value update at one key. -/
theorem alookup_map_upd {β : Type} (s : List (String × β)) (n k : String)
    (w : β) :
    alookup (s.map fun p => if p.1 = n then (p.1, w) else p) k =
      if k = n then (alookup s n).map (fun _ => w) else alookup s k := by
  induction s with
  | nil => simp [alookup]
  | cons p rest ih =>
    simp only [List.map_cons]
    by_cases hpn : p.1 = n
    · by_cases hpk : p.1 = k
      · have hkn : k = n := by rw [← hpk, hpn]
        simp [alookup, hpn, hpk, hkn]
      · have hkn : ¬ k = n := fun hh => hpk (by rw [hpn, ← hh])
        have hnk : ¬ n = k := fun hh => hkn hh.symm
        simp [alookup, hpn, hpk, hkn, hnk, ih]
    · by_cases hpk : p.1 = k
      · have hkn : ¬ k = n := fun hh => hpn (by rw [hpk, hh])
        simp [alookup, hpn, hpk, hkn]
      · simp only [alookup, hpn, if_false, hpk, ih]

/-- Lookup after one `addQty` step of the batch summary. -/
theorem alookup_addQty (s : List (String × Int)) (n k : String) (q : Int) :
    alookup (addQty s n q) k =
      if k = n then some ((alookup s n).getD 0 + q) else alookup s k := by
  unfold addQty
  cases hn : alookup s n with
  | none =>
    by_cases hk : k = n
    · subst hk
      rw [alookup_append_none s _ k hn]
      simp [alookup, hn]
    · cases hsk : alookup s k with
      | none =>
        rw [alookup_append_none s _ k hsk]
        have : ¬ n = k := fun hh => hk hh.symm
        simp [alookup, hk, this]
      | some v =>
        rw [alookup_append_some s _ k v hsk]
        simp [hk]
  | some v =>
    rw [alookup_map_upd s n k (v + q)]
    by_cases hk : k = n
    · simp [hk, hn]
    · simp [hk]

/-- Lookup after folding one order's items into a summary: present names
gain the order's total for that name, others are untouched. -/
theorem alookup_items_fold (k : String) (items : List (String × OrderLine)) :
    ∀ s : List (String × Int),
      alookup (items.foldl (fun acc p => addQty acc p.1 p.2.quantity) s) k =
        if (items.any fun p => p.1 = k) = true then
          some ((alookup s k).getD 0 +
            ((items.filter fun p => p.1 = k).map fun p => p.2.quantity).sum)
        else alookup s k := by
  induction items with
  | nil => intro s; simp
  | cons p rest ih =>
    obtain ⟨pn, pv⟩ := p
    intro s
    simp only [List.foldl_cons]
    rw [ih (addQty s pn pv.quantity), alookup_addQty]
    by_cases hp : pn = k
    · subst hp
      by_cases hr : (rest.any fun q => q.1 = pn) = true
      · simp [hr]
        omega
      · have hfil : (rest.filter fun q => q.1 = pn) = [] := by
          rw [List.filter_eq_nil_iff]
          intro x hx hcx
          exact hr (List.any_eq_true.mpr ⟨x, hx, hcx⟩)
        simp [hr, hfil]
    · have hk : ¬ k = pn := fun hh => hp hh.symm
      rw [if_neg hk]
      have hd : decide (pn = k) = false := decide_eq_false hp
      simp only [List.any_cons, List.filter_cons, hd]
      rfl

/-- selHas unfolded over a cons of indices. -/
theorem selHas_cons (orders : List Order) (k : String) (i : Int)
    (rest : List Int) :
    selHas orders (i :: rest) k = (idxHas orders k i || selHas orders rest k) := by
  simp [selHas]

/-- selQty unfolded over a cons of indices. -/
theorem selQty_cons (orders : List Order) (k : String) (i : Int)
    (rest : List Int) :
    selQty orders (i :: rest) k = idxQty orders k i + selQty orders rest k := by
  simp [selQty]

/-- An order without an entry for the name contributes quantity 0. -/
theorem orderQty_zero_of_any_false (o : Order) (k : String)
    (h : (o.items.any fun p => p.1 = k) = false) : orderQty o k = 0 := by
  have hfil : (o.items.filter fun p => p.1 = k) = [] := by
    rw [List.filter_eq_nil_iff]
    intro x hx hcx
    have hany : (o.items.any fun p => p.1 = k) = true := by
      rw [List.any_eq_true]
      exact ⟨x, hx, hcx⟩
    rw [h] at hany
    exact Bool.false_ne_true hany
  simp [orderQty, hfil]

/-- A selection without any entry for the name totals 0. -/
theorem selQty_zero_of_selHas_false (orders : List Order) (k : String)
    (indices : List Int) (h : selHas orders indices k = false) :
    selQty orders indices k = 0 := by
  induction indices with
  | nil => rfl
  | cons i rest ih =>
    rw [selHas_cons] at h
    rcases Bool.or_eq_false_iff.mp h with ⟨h1, h2⟩
    rw [selQty_cons, ih h2]
    cases hj : jsIndex orders i with
    | none => simp [idxQty, hj]
    | some o =>
      simp only [idxHas, hj] at h1
      simp [idxQty, hj, orderQty_zero_of_any_false o k h1]

/-- Lookup after folding the selected indices over any starting
summary. -/
theorem alookup_indices_fold (orders : List Order) (k : String)
    (indices : List Int) :
    ∀ s : List (String × Int),
      alookup (indices.foldl (stepIdx orders) s) k =
        if selHas orders indices k = true then
          some ((alookup s k).getD 0 + selQty orders indices k)
        else alookup s k := by
  induction indices with
  | nil => intro s; simp [selHas, selQty]
  | cons i rest ih =>
    intro s
    simp only [List.foldl_cons]
    cases hj : jsIndex orders i with
    | none =>
      rw [show stepIdx orders s i = s from by simp [stepIdx, hj]]
      rw [ih s, selHas_cons, selQty_cons]
      rw [show idxHas orders k i = false from by simp [idxHas, hj]]
      rw [show idxQty orders k i = 0 from by simp [idxQty, hj]]
      rw [Bool.false_or]
      by_cases hs : selHas orders rest k = true
      · rw [if_pos hs, if_pos hs]
        simp only [Option.some.injEq]
        omega
      · rw [if_neg hs, if_neg hs]
    | some o =>
      rw [show stepIdx orders s i = addOrderItems s o from by simp [stepIdx, hj]]
      rw [ih (addOrderItems s o)]
      have hstart : alookup (addOrderItems s o) k =
          if (o.items.any fun p => p.1 = k) = true then
            some ((alookup s k).getD 0 + orderQty o k)
          else alookup s k := alookup_items_fold k o.items s
      rw [selHas_cons, selQty_cons]
      rw [show idxHas orders k i = (o.items.any fun p => p.1 = k) from by
        simp [idxHas, hj]]
      rw [show idxQty orders k i = orderQty o k from by simp [idxQty, hj]]
      by_cases ha : (o.items.any fun p => p.1 = k) = true
      · rw [hstart, if_pos ha, ha, Bool.true_or]
        by_cases hs : selHas orders rest k = true
        · rw [if_pos hs, if_pos rfl]
          simp only [Option.getD_some, Option.some.injEq]
          omega
        · rw [if_neg hs, if_pos rfl]
          have hs' : selHas orders rest k = false := by
            revert hs
            cases selHas orders rest k <;> simp
          rw [selQty_zero_of_selHas_false orders k rest hs']
          simp only [Option.getD_some, Option.some.injEq]
          omega
      · have ha' : (o.items.any fun p => p.1 = k) = false := by
          revert ha
          cases (o.items.any fun p => p.1 = k) <;> simp
        rw [hstart, if_neg ha, ha', Bool.false_or]
        rw [orderQty_zero_of_any_false o k ha']
        by_cases hs : selHas orders rest k = true
        · rw [if_pos hs, if_pos hs]
          simp only [Option.some.injEq]
          omega
        · rw [if_neg hs, if_neg hs]

/-- Claim C6: for every order sequence and index list, the batch summary
maps each item name present in some selected order to the sum of its
quantities over the orders at the defined indices (undefined or
out-of-range indices are skipped and orders are not mutated — the
embedding is a pure function of the inputs), and the quoted two-order
scenario aggregates to A:5, B:1. -/
theorem buildBatchSummary_spec :
    (∀ (orders : List Order) (indices : List Int) (k : String),
       alookup (buildBatchSummary orders indices) k =
         if selHas orders indices k = true then some (selQty orders indices k)
         else none) ∧
    buildBatchSummary [ordA, ordAB] [0, 1] = [("A", 5), ("B", 1)] := by
  refine ⟨fun orders indices k => ?_, by decide⟩
  simp only [buildBatchSummary]
  rw [alookup_indices_fold orders k indices []]
  simp [alookup]

/-- A list containing a non-whitespace character does not trim to
empty. -/
theorem trimL_ne_nil_of_mem {c : Char} {l : List Char} (hc : c ∈ l)
    (hw : wsp c = false) : trimL l ≠ [] := by
  have h1 : c ∈ l.dropWhile wsp := by
    have hsplit := List.takeWhile_append_dropWhile (p := wsp) (l := l)
    rw [← hsplit] at hc
    rcases List.mem_append.mp hc with ht | hd
    · have := List.mem_takeWhile_imp ht
      rw [hw] at this
      exact absurd this (by simp)
    · exact hd
  intro hnil
  unfold trimL at hnil
  rw [List.reverse_eq_nil_iff, List.dropWhile_eq_nil_iff] at hnil
  have h2 : c ∈ (l.dropWhile wsp).reverse := List.mem_reverse.mpr h1
  have := hnil c h2
  rw [hw] at this
  exact absurd this (by simp)

/-- Splitting never yields an empty field list, and every input
character is a separator or lands in some field. -/
theorem splitSeps_cover (l : List Char) :
    splitSeps l ≠ [] ∧
      ∀ c ∈ l, isSep c = true ∨ ∃ f ∈ splitSeps l, c ∈ f := by
  induction l with
  | nil =>
    constructor
    · simp [splitSeps]
    · intro c hc
      simp at hc
  | cons a l ih =>
    have hstep : splitSeps (a :: l) = (splitStep a (l.foldr splitStep (false, [[]]))).2 := by
      simp [splitSeps, List.foldr_cons]
    by_cases hsep : isSep a = true
    · have hres : splitSeps (a :: l) =
          (if (l.foldr splitStep (false, [[]])).1 then splitSeps l
           else [] :: splitSeps l) := by
        rw [hstep]
        simp [splitStep, hsep, splitSeps]
      constructor
      · rw [hres]
        split
        · exact ih.1
        · simp
      · intro c hc
        rcases List.mem_cons.mp hc with hca | hcl
        · left
          rw [hca]
          exact hsep
        · rcases ih.2 c hcl with hs | ⟨f, hf, hcf⟩
          · exact Or.inl hs
          · right
            refine ⟨f, ?_, hcf⟩
            rw [hres]
            split
            · exact hf
            · exact List.mem_cons_of_mem _ hf
    · obtain ⟨h0, t0, ht⟩ := List.exists_cons_of_ne_nil ih.1
      have hres : splitSeps (a :: l) = (a :: h0) :: t0 := by
        rw [hstep]
        simp only [splitStep, hsep, if_false]
        show ((a :: (splitSeps l).headD []) :: (splitSeps l).tail) = _
        rw [ht]
        simp
      constructor
      · rw [hres]
        simp
      · intro c hc
        rcases List.mem_cons.mp hc with hca | hcl
        · right
          refine ⟨a :: h0, ?_, ?_⟩
          · rw [hres]; exact List.mem_cons_self _ _
          · rw [hca]; exact List.mem_cons_self _ _
        · rcases ih.2 c hcl with hs | ⟨f, hf, hcf⟩
          · exact Or.inl hs
          · right
            rw [ht] at hf
            rcases List.mem_cons.mp hf with hfh | hft
            · refine ⟨a :: h0, ?_, ?_⟩
              · rw [hres]; exact List.mem_cons_self _ _
              · rw [hfh] at hcf; exact List.mem_cons_of_mem _ hcf
            · refine ⟨f, ?_, hcf⟩
              rw [hres]
              exact List.mem_cons_of_mem _ hft

/-- Characters of any field survive the space-join. -/
theorem joinSpace_mem {c : Char} {f : List Char} {fs : List (List Char)}
    (hcf : c ∈ f) (hf : f ∈ fs) : c ∈ joinSpace fs := by
  induction fs with
  | nil => simp at hf
  | cons g fs ih =>
    rcases List.mem_cons.mp hf with hfg | hft
    · cases fs with
      | nil =>
        rw [hfg] at hcf
        simpa [joinSpace] using hcf
      | cons g2 fs2 =>
        rw [hfg] at hcf
        simp only [joinSpace]
        exact List.mem_append.mpr (Or.inl hcf)
    · cases fs with
      | nil => simp at hft
      | cons g2 fs2 =>
        simp only [joinSpace]
        refine List.mem_append.mpr (Or.inr ?_)
        exact List.mem_cons_of_mem _ (ih hft)

/-- Claim C1 (amended): parseLine is total (a Lean function) and returns
`none` exactly when the trimmed line is empty or starts with '#';
otherwise it returns a MenuItem, whose name is non-empty whenever the
trimmed line contains at least one character that is neither a separator
nor whitespace (for a line consisting solely of separators, such as "-",
the returned name is empty). -/
theorem parseLine_total_spec :
    (∀ line : String,
       (parseLine line = none ↔
         (trimL line.data = [] ∨ (trimL line.data).headD ' ' = '#'))) ∧
    (∀ (line : String) (m : MenuItem), parseLine line = some m →
       (∃ c ∈ trimL line.data, isSep c = false ∧ wsp c = false) →
       0 < m.name.length) := by
  constructor
  · intro line
    by_cases h1 : trimL line.data = []
    · simp [parseLine, parseLineC, h1]
    · by_cases h2 : (trimL line.data).head?.getD ' ' = '#'
      · simp [parseLine, parseLineC, h1, h2]
      · simp [parseLine, parseLineC, h1, h2]
        split_ifs <;> simp
  · intro line m hm hex
    obtain ⟨c, hcmem, hcsep, hcw⟩ := hex
    by_cases h1 : trimL line.data = []
    · rw [h1] at hcmem
      simp at hcmem
    · by_cases h2 : (trimL line.data).head?.getD ' ' = '#'
      · simp [parseLine, parseLineC, h1, h2] at hm
      · have hcover := (splitSeps_cover (trimL line.data)).2 c hcmem
        have hne := (splitSeps_cover (trimL line.data)).1
        obtain ⟨h0, t0, ht⟩ := List.exists_cons_of_ne_nil hne
        rcases hcover with hs | ⟨f, hf, hcf⟩
        · rw [hcsep] at hs
          exact absurd hs (by simp)
        · by_cases hlen : 1 < (splitSeps (trimL line.data)).length
          · by_cases hname :
                trimL (joinSpace (splitSeps (trimL line.data)).tail) = []
            · -- swap branch: the name is the trimmed first field
              rw [ht] at hf
              rcases List.mem_cons.mp hf with hfh | hft
              · simp [parseLine, parseLineC, h1, h2, hlen, hname] at hm
                have hhd : (splitSeps (trimL line.data)).head?.getD [] = h0 := by
                  rw [ht]
                  rfl
                rw [hhd] at hm
                rw [hfh] at hcf
                have hpos : trimL h0 ≠ [] := trimL_ne_nil_of_mem hcf hcw
                rw [← hm]
                show 0 < (trimL h0).length
                exact List.length_pos.mpr hpos
              · exfalso
                have hc2 : c ∈ joinSpace (splitSeps (trimL line.data)).tail := by
                  apply joinSpace_mem hcf
                  rw [ht]
                  exact hft
                exact trimL_ne_nil_of_mem hc2 hcw hname
            · -- at least two fields and a non-empty joined name
              simp [parseLine, parseLineC, h1, h2, hlen, hname] at hm
              rw [← hm]
              show 0 < (trimL (joinSpace (splitSeps (trimL line.data)).tail)).length
              exact List.length_pos.mpr hname
          · -- single field: the name is the whole trimmed line
            simp [parseLine, parseLineC, h1, h2, hlen] at hm
            rw [← hm]
            show 0 < (trimL line.data).length
            exact List.length_pos.mpr h1

/-- Witness for C1: both parts applied at concrete lines. -/
theorem parseLine_total_spec_w :
    (parseLine "# note" = none ↔
      (trimL "# note".data = [] ∨ (trimL "# note".data).headD ' ' = '#')) ∧
    0 < (MenuItem.name ⟨"drinks", "Soda"⟩).length :=
  ⟨parseLine_total_spec.1 "# note",
   parseLine_total_spec.2 "drinks|Soda" ⟨"drinks", "Soda"⟩ (by decide)
     ⟨'S', by decide, by decide, by decide⟩⟩

/-- Counterexample for C1 as stated: the non-empty non-comment line "-"
parses to a MenuItem whose name is the empty string. -/
theorem parseLine_dash_cex :
    parseLine "-" = some ⟨"uncategorized", ""⟩ ∧
    (MenuItem.name ⟨"uncategorized", ""⟩).length = 0 := by
  constructor <;> decide
